import Mathlib

set_option maxHeartbeats 1000000

/-!
Verification development for the desimeter repository
(`py/desimeter/desimeter.py` and `py/desimeter/fiberassign.py`).

The Python code works on numpy columns of astropy tables; here every table
is a `List` of per-row structures and every float column is modelled over `ℚ`
(with `ℝ` only where a genuine square root or `π` appears in a statement).
External collaborators that are not part of this repository's sources
(`match_same_system`, `fit_circle`, `xy2uv`/`uv2xy`, `radec2tan`, `tan2fp`,
`hadec2xy`, `sincosd`) are taken as opaque function parameters: the claims
under study only concern how `desimeter.py`/`fiberassign.py` use their
results, never their internals.
-/

/-! ## Model of `Desimeter.measure_spots` (desimeter.py lines 60-106)

A detection row.  `location = -1` means unmatched; `x_fp_exp`/`y_fp_exp`
are the expected-position columns (created filled with zeros when absent,
exactly as `spots[k2] = np.zeros(len(spots))` does), `x_fp_metro`/
`y_fp_metro` the metrology-derived position columns. -/
structure Spot where
  x_fp : ℚ
  y_fp : ℚ
  location : ℤ
  x_fp_metro : ℚ
  y_fp_metro : ℚ
  x_fp_exp : ℚ
  y_fp_exp : ℚ
  petal_loc : ℚ
  device_loc : ℚ
  deriving DecidableEq, Inhabited

/-- One row of the metrology catalog `self.metro`. -/
structure MetroRow where
  x_fp : ℚ
  y_fp : ℚ
  petal_loc : ℚ
  device_loc : ℚ
  location : ℤ
  deriving DecidableEq, Inhabited

/-- Copy the expected-position and identity fields of metrology row `idx`
onto a spot: the body of the two copy loops at desimeter.py lines 89-95
(`EXP_Q_0`/`EXP_S_0`, copied under the same `if k in self.metro.keys()`
guard and used nowhere afterwards, are elided like every other column the
modelled claims never read). -/
def updateFromMetro (metro : List MetroRow) (s : Spot) (idx : ℤ) : Spot :=
  let r := metro.getD idx.toNat default
  { s with x_fp_exp := r.x_fp, y_fp_exp := r.y_fp, petal_loc := r.petal_loc,
           device_loc := r.device_loc, location := r.location }

/-- desimeter.py lines 76-95: walk the spot table; each spot with
`LOCATION == -1` consumes the next matcher result `(index, distance)` (the
matcher `match_same_system` returns one result per unmatched spot, in
order).  The result is applied iff `distance < 7 ∧ 0 ≤ index`
(`is_matched = (distances<max_match_distance)&(indices_of_expected_pos>=0)`
with `max_match_distance = 7`); otherwise the spot is left untouched. -/
def applySpotMatches (metro : List MetroRow) : List Spot → List (ℤ × ℚ) → List Spot
  | [], _ => []
  | s :: rest, ms =>
    if s.location = -1 then
      match ms with
      | [] => s :: applySpotMatches metro rest []
      | m :: mrest =>
          (if m.2 < 7 ∧ 0 ≤ m.1 then updateFromMetro metro s m.1 else s) ::
            applySpotMatches metro rest mrest
    else
      s :: applySpotMatches metro rest ms

/-- desimeter.py lines 97-101: wherever `X_FP_METRO` (resp. `Y_FP_METRO`)
is nonzero, overwrite `X_FP_EXP` (resp. `Y_FP_EXP`) with it. -/
def applyMetroOverride (s : Spot) : Spot :=
  let s1 := if s.x_fp_metro ≠ 0 then { s with x_fp_exp := s.x_fp_metro } else s
  if s1.y_fp_metro ≠ 0 then { s1 with y_fp_exp := s1.y_fp_metro } else s1

/-- The post-transform-fit part of `Desimeter.measure_spots` (lines 76-101):
match-and-copy, then the metrology override.  The matcher results `ms` are
a parameter because `match_same_system` is an external collaborator. -/
def measure_spots (metro : List MetroRow) (spots : List Spot)
    (ms : List (ℤ × ℚ)) : List Spot :=
  (applySpotMatches metro spots ms).map applyMetroOverride

/-- Number of unmatched spots strictly before position `i`: the rank at
which position `i` consumes its matcher result. -/
def unmatchedBefore : List Spot → Nat → Nat
  | _, 0 => 0
  | [], _ + 1 => 0
  | s :: rest, i + 1 => (if s.location = -1 then 1 else 0) + unmatchedBefore rest i

theorem applySpotMatches_length (metro : List MetroRow) :
    ∀ (spots : List Spot) (ms : List (ℤ × ℚ)),
      (applySpotMatches metro spots ms).length = spots.length := by
  intro spots
  induction spots with
  | nil => intro ms; rfl
  | cons s rest ih =>
      intro ms
      by_cases h : s.location = -1
      · cases ms with
        | nil => simp [applySpotMatches, h, ih]
        | cons m mrest => simp [applySpotMatches, h, ih]
      · simp [applySpotMatches, h, ih]

theorem unmatchedBefore_lt :
    ∀ (spots : List Spot) (i : Nat), i < spots.length →
      (spots.getD i default).location = -1 →
      unmatchedBefore spots i <
        (spots.filter (fun s => decide (s.location = -1))).length := by
  intro spots
  induction spots with
  | nil => intro i hi; simp at hi
  | cons s rest ih =>
      intro i hi hloc
      cases i with
      | zero =>
          simp only [List.getD_cons_zero] at hloc
          simp [unmatchedBefore, List.filter_cons, hloc]
      | succ j =>
          simp only [List.getD_cons_succ] at hloc
          have hj : j < rest.length := by simpa using hi
          have := ih j hj hloc
          by_cases h : s.location = -1 <;>
            · simp [unmatchedBefore, List.filter_cons, h]
              omega

theorem applySpotMatches_getD (metro : List MetroRow) :
    ∀ (spots : List Spot) (ms : List (ℤ × ℚ)) (i : Nat), i < spots.length →
      (spots.getD i default).location = -1 →
      (spots.filter (fun s => decide (s.location = -1))).length ≤ ms.length →
      (applySpotMatches metro spots ms).getD i default =
        (if (ms.getD (unmatchedBefore spots i) (0, 0)).2 < 7 ∧
            0 ≤ (ms.getD (unmatchedBefore spots i) (0, 0)).1
         then updateFromMetro metro (spots.getD i default)
                (ms.getD (unmatchedBefore spots i) (0, 0)).1
         else spots.getD i default) := by
  intro spots
  induction spots with
  | nil => intro ms i hi; simp at hi
  | cons s rest ih =>
      intro ms i hi hloc hlen
      by_cases h : s.location = -1
      · have hpos : 0 < ms.length := by
          have : 0 < (List.filter (fun s => decide (s.location = -1)) (s :: rest)).length := by
            simp [List.filter_cons, h]
          omega
        cases ms with
        | nil => simp at hpos
        | cons m mrest =>
            cases i with
            | zero =>
                simp [applySpotMatches, h, unmatchedBefore]
            | succ j =>
                have hj : j < rest.length := by simpa using hi
                have hloc' : (rest.getD j default).location = -1 := by
                  simpa using hloc
                have hlen' :
                    (rest.filter (fun s => decide (s.location = -1))).length ≤ mrest.length := by
                  have : (List.filter (fun s => decide (s.location = -1)) (s :: rest)).length
                      = (rest.filter (fun s => decide (s.location = -1))).length + 1 := by
                    simp [List.filter_cons, h]
                  simp only [List.length_cons] at hlen
                  omega
                have hstep := ih mrest j hj hloc' hlen'
                have hgetD : ∀ d : ℤ × ℚ,
                    (m :: mrest).getD (1 + unmatchedBefore rest j) d =
                      mrest.getD (unmatchedBefore rest j) d := by
                  intro d
                  rw [Nat.add_comm]
                  rfl
                simp only [applySpotMatches, h, if_true, unmatchedBefore, List.getD_cons_succ,
                  ite_true, hgetD]
                simpa using hstep
      · cases i with
        | zero =>
            simp only [List.getD_cons_zero] at hloc
            exact absurd hloc h
        | succ j =>
            have hj : j < rest.length := by simpa using hi
            have hloc' : (rest.getD j default).location = -1 := by simpa using hloc
            have hlen' :
                (rest.filter (fun s => decide (s.location = -1))).length ≤ ms.length := by
              simpa [List.filter_cons, h] using hlen
            have := ih ms j hj hloc' hlen'
            simpa [applySpotMatches, h, unmatchedBefore] using this

theorem getD_map_spot (f : Spot → Spot) (l : List Spot) (i : Nat) (hi : i < l.length) :
    (l.map f).getD i default = f (l.getD i default) := by
  rw [List.getD_eq_getElem?_getD, List.getD_eq_getElem?_getD, List.getElem?_map,
    List.getElem?_eq_getElem hi]
  rfl

theorem applyMetroOverride_x_fp_exp (s : Spot) :
    (applyMetroOverride s).x_fp_exp =
      (if s.x_fp_metro ≠ 0 then s.x_fp_metro else s.x_fp_exp) := by
  by_cases hx : s.x_fp_metro ≠ 0 <;> by_cases hy : s.y_fp_metro ≠ 0 <;>
    simp [applyMetroOverride, hx, hy]

theorem applyMetroOverride_y_fp_exp (s : Spot) :
    (applyMetroOverride s).y_fp_exp =
      (if s.y_fp_metro ≠ 0 then s.y_fp_metro else s.y_fp_exp) := by
  by_cases hx : s.x_fp_metro ≠ 0 <;> by_cases hy : s.y_fp_metro ≠ 0 <;>
    simp [applyMetroOverride, hx, hy]

/-- Claim C1: in `measure_spots`, a detection still unmatched
(`LOCATION == -1`) after the transform refit accepts its matcher candidate
iff the returned distance is strictly below 7 mm and the returned index is
nonnegative; on acceptance the metrology row's expected-position and
identity fields are copied, otherwise the detection is left exactly as it
was (so it keeps `LOCATION == -1` and receives nothing from the catalog). -/
theorem measure_spots_match_gate (metro : List MetroRow) (spots : List Spot)
    (ms : List (ℤ × ℚ)) (i : Nat) (hi : i < spots.length)
    (hloc : (spots.getD i default).location = -1)
    (hlen : (spots.filter (fun s => decide (s.location = -1))).length ≤ ms.length)
    (hmetro : ∀ r ∈ metro, 0 ≤ r.location)
    (hvalid : ∀ m ∈ ms, 0 ≤ m.1 → m.1.toNat < metro.length) :
    ((applySpotMatches metro spots ms).getD i default =
      (if (ms.getD (unmatchedBefore spots i) (0, 0)).2 < 7 ∧
          0 ≤ (ms.getD (unmatchedBefore spots i) (0, 0)).1
       then updateFromMetro metro (spots.getD i default)
              (ms.getD (unmatchedBefore spots i) (0, 0)).1
       else spots.getD i default)) ∧
    (((applySpotMatches metro spots ms).getD i default).location = -1 ↔
      ¬((ms.getD (unmatchedBefore spots i) (0, 0)).2 < 7 ∧
        0 ≤ (ms.getD (unmatchedBefore spots i) (0, 0)).1)) := by
  have hmain := applySpotMatches_getD metro spots ms i hi hloc hlen
  refine ⟨hmain, ?_⟩
  by_cases hgate : (ms.getD (unmatchedBefore spots i) (0, 0)).2 < 7 ∧
      0 ≤ (ms.getD (unmatchedBefore spots i) (0, 0)).1
  · rw [hmain, if_pos hgate]
    have hrank : unmatchedBefore spots i < ms.length :=
      lt_of_lt_of_le (unmatchedBefore_lt spots i hi hloc) hlen
    have hmmem : ms.getD (unmatchedBefore spots i) (0, 0) ∈ ms := by
      rw [List.getD_eq_getElem?_getD, List.getElem?_eq_getElem hrank]
      exact List.getElem_mem hrank
    have hidx := hvalid _ hmmem hgate.2
    have hrmem : metro.getD (ms.getD (unmatchedBefore spots i) (0, 0)).1.toNat default ∈ metro := by
      rw [List.getD_eq_getElem?_getD, List.getElem?_eq_getElem hidx]
      exact List.getElem_mem hidx
    have hrloc := hmetro _ hrmem
    simp only [updateFromMetro]
    constructor
    · intro hcontr
      omega
    · intro hcontr
      exact absurd hgate hcontr
  · rw [hmain, if_neg hgate]
    exact ⟨fun _ => hgate, fun _ => hloc⟩

/-- Concrete metrology catalog for the C1 witness. -/
def metroW : List MetroRow := [⟨5, 6, 3, 10, 3010⟩]

/-- Two unmatched spots for the C1 witness: the first gets a candidate at
distance 2 (accepted), the second at distance 8 (rejected). -/
def spotsW : List Spot :=
  [⟨1, 1, -1, 0, 0, 0, 0, 0, 0⟩, ⟨2, 2, -1, 0, 0, 0, 0, 0, 0⟩]

/-- Matcher results for the C1 witness. -/
def msW : List (ℤ × ℚ) := [(0, 2), (0, 8)]

theorem measure_spots_match_gate_witness :
    (applySpotMatches metroW spotsW msW).getD 0 default =
        updateFromMetro metroW (spotsW.getD 0 default) 0 ∧
    ((applySpotMatches metroW spotsW msW).getD 1 default).location = -1 := by
  have h0 := measure_spots_match_gate metroW spotsW msW 0 (by decide) (by decide)
    (by decide) (by decide) (by decide)
  have h1 := measure_spots_match_gate metroW spotsW msW 1 (by decide) (by decide)
    (by decide) (by decide) (by decide)
  constructor
  · have hc : (msW.getD (unmatchedBefore spotsW 0) (0, 0)).2 < 7 ∧
        0 ≤ (msW.getD (unmatchedBefore spotsW 0) (0, 0)).1 := by decide
    rw [h0.1, if_pos hc]
    decide
  · exact h1.2.mpr (by decide)

/-- Claim C5: after the match-copy stage, every detection with nonzero
`X_FP_METRO` has `X_FP_EXP` overwritten with it, and independently every
detection with nonzero `Y_FP_METRO` has `Y_FP_EXP` overwritten with it;
zero metrology fields leave the match-derived expected value in place. -/
theorem measure_spots_metro_override (metro : List MetroRow) (spots : List Spot)
    (ms : List (ℤ × ℚ)) (i : Nat) (hi : i < spots.length) :
    ((measure_spots metro spots ms).getD i default =
      applyMetroOverride ((applySpotMatches metro spots ms).getD i default)) ∧
    (((applySpotMatches metro spots ms).getD i default).x_fp_metro ≠ 0 →
      ((measure_spots metro spots ms).getD i default).x_fp_exp =
        ((applySpotMatches metro spots ms).getD i default).x_fp_metro) ∧
    (((applySpotMatches metro spots ms).getD i default).x_fp_metro = 0 →
      ((measure_spots metro spots ms).getD i default).x_fp_exp =
        ((applySpotMatches metro spots ms).getD i default).x_fp_exp) ∧
    (((applySpotMatches metro spots ms).getD i default).y_fp_metro ≠ 0 →
      ((measure_spots metro spots ms).getD i default).y_fp_exp =
        ((applySpotMatches metro spots ms).getD i default).y_fp_metro) ∧
    (((applySpotMatches metro spots ms).getD i default).y_fp_metro = 0 →
      ((measure_spots metro spots ms).getD i default).y_fp_exp =
        ((applySpotMatches metro spots ms).getD i default).y_fp_exp) := by
  have hlen : i < (applySpotMatches metro spots ms).length := by
    rw [applySpotMatches_length]
    exact hi
  have hmap : (measure_spots metro spots ms).getD i default =
      applyMetroOverride ((applySpotMatches metro spots ms).getD i default) :=
    getD_map_spot applyMetroOverride _ i hlen
  refine ⟨hmap, ?_, ?_, ?_, ?_⟩
  · intro hx
    rw [hmap, applyMetroOverride_x_fp_exp, if_pos hx]
  · intro hx
    rw [hmap, applyMetroOverride_x_fp_exp, if_neg (by simp only [ne_eq, not_not]; exact hx)]
  · intro hy
    rw [hmap, applyMetroOverride_y_fp_exp, if_pos hy]
  · intro hy
    rw [hmap, applyMetroOverride_y_fp_exp, if_neg (by simp only [ne_eq, not_not]; exact hy)]

/-- One matched spot with a nonzero `X_FP_METRO` and a zero `Y_FP_METRO`,
for the C5 witness. -/
def spotsW5 : List Spot := [⟨1, 2, 3010, 4, 0, 9, 9, 3, 10⟩]

theorem measure_spots_metro_override_witness :
    ((measure_spots [] spotsW5 []).getD 0 default).x_fp_exp = 4 ∧
    ((measure_spots [] spotsW5 []).getD 0 default).y_fp_exp = 9 := by
  have h := measure_spots_metro_override [] spotsW5 [] 0 (by decide)
  constructor
  · rw [h.2.1 (by decide)]
    decide
  · rw [h.2.2.2.2 (by decide)]
    decide

/-! ## Model of `Desimeter.measure_circles` (desimeter.py lines 108-205)

A registered detection as consumed by `measure_circles`. -/
structure CSpot where
  location : ℤ
  pinhole_id : ℤ
  x_fp : ℚ
  y_fp : ℚ
  x_fp_exp : ℚ
  y_fp_exp : ℚ
  deriving DecidableEq, Inhabited

/-- The composite device key `LOCATION*10 + PINHOLE_ID` (line 117). -/
def devkey (s : CSpot) : ℤ := s.location * 10 + s.pinhole_id

/-- Accumulated state for one device: the per-exposure observed positions
(`x[loc]`, `y[loc]`) and the expected position (`xexp[loc]`, `yexp[loc]`). -/
structure DevAcc where
  xs : List ℚ
  ys : List ℚ
  xexp : ℚ
  yexp : ℚ
  deriving DecidableEq, Inhabited

/-- The four parallel Python dicts `x`, `y`, `xexp`, `yexp`, modelled as one
insertion-ordered association list (Python dicts preserve insertion order,
which matters because the per-device loop later pairs `x.keys()` with the
`pinhole` array derived from it). -/
abbrev DevMap := List (ℤ × DevAcc)

/-- Python `loc in x.keys()`. -/
def hasKey (acc : DevMap) (k : ℤ) : Bool := acc.any (fun e => decide (e.1 = k))

/-- Python `x[loc] = v`: replace the value in place if the key exists,
else append the key at the end (dict insertion order). -/
def setEntry (acc : DevMap) (k : ℤ) (d : DevAcc) : DevMap :=
  if hasKey acc k then acc.map (fun e => if e.1 = k then (e.1, d) else e)
  else acc ++ [(k, d)]

/-- Python `x[loc].append(xi); y[loc].append(yi)`. -/
def appendPt (acc : DevMap) (k : ℤ) (p : ℚ × ℚ) : DevMap :=
  acc.map (fun e =>
    if e.1 = k then (e.1, ⟨e.2.xs ++ [p.1], e.2.ys ++ [p.2], e.2.xexp, e.2.yexp⟩) else e)

/-- Python `x.get(loc)` (never fails in the modelled code paths). -/
def lookupAcc (acc : DevMap) (k : ℤ) : Option DevAcc :=
  (acc.find? (fun e => decide (e.1 = k))).map Prod.snd

/-- Python `np.where(location_and_pinhole==loc)[0].size`: how many detections
of exposure `t` carry device key `k` (the mask is over the whole table,
not only over the `LOCATION>0` selection). -/
def countKey (t : List CSpot) (k : ℤ) : Nat :=
  (t.filter (fun u => decide (devkey u = k))).length

/-- Fresh accumulator entry built from the first detection of exposure `t`
whose key is `k` (Python `t["X_FP_EXP"][location_and_pinhole==loc][0]`). -/
def initDev (t : List CSpot) (k : ℤ) : DevAcc :=
  match t.find? (fun u => decide (devkey u = k)) with
  | some u => ⟨[], [], u.x_fp_exp, u.y_fp_exp⟩
  | none => ⟨[], [], 0, 0⟩

/-- Lines 118-125 (`if first:` block): initialise an entry for every
selected detection's key. -/
def initFold (t : List CSpot) : DevMap → List CSpot → DevMap
  | acc, [] => acc
  | acc, s :: rest =>
      initFold t (if 0 < s.location then setEntry acc (devkey s) (initDev t (devkey s)) else acc) rest

/-- The whole `first` block applied to the first exposure. -/
def initFirst (t : List CSpot) : DevMap := initFold t [] t

/-- Lines 127-139, one iteration of `for loc in location_and_pinhole[selection]`:
skip the key entirely when several detections of the exposure share it
(`if ii.size > 1: continue`), otherwise create the entry if needed and
append the unique detection's measured position. -/
def expStep (t : List CSpot) (acc : DevMap) (k : ℤ) : DevMap :=
  if 1 < countKey t k then acc
  else
    match t.find? (fun u => decide (devkey u = k)) with
    | none => acc
    | some u =>
        appendPt (if hasKey acc k then acc else acc ++ [(k, ⟨[], [], u.x_fp_exp, u.y_fp_exp⟩)])
          k (u.x_fp, u.y_fp)

/-- Lines 127-139 in full: iterate over the exposure's selected detections. -/
def expFold (t : List CSpot) : DevMap → List CSpot → DevMap
  | acc, [] => acc
  | acc, s :: rest =>
      expFold t (if 0 < s.location then expStep t acc (devkey s) else acc) rest

/-- Process one exposure's append loop. -/
def procExposure (acc : DevMap) (t : List CSpot) : DevMap := expFold t acc t

/-- Lines 109-139: the accumulation over all exposures (`for spots in
allspots`); the first exposure additionally runs the `first` init block. -/
def accumulate : List (List CSpot) → DevMap
  | [] => []
  | t :: rest => rest.foldl procExposure (procExposure (initFirst t) t)

/-- The mean `np.mean` over `ℚ` (empty list: `0`, a case np.mean turns into NaN and
the modelled claims never exercise). -/
def meanQ (l : List ℚ) : ℚ := l.sum / l.length

/-- The variance `np.std(l)**2` (ddof=0).  The code tests `np.std(x) < 1`;
since `std = sqrt(var)` and both sides are nonnegative this is equivalent
to `varQ x < 1`, which keeps the test inside `ℚ`. -/
def varQ (l : List ℚ) : ℚ := ((l.map (fun v => (v - meanQ l) ^ 2)).sum) / l.length

/-- The median `np.median` over `ℚ`: sort, take the middle element (odd length) or the
mean of the two middle elements (even length).  Empty list: `0` (np.median
of an empty array is NaN; no modelled claim exercises it). -/
def medianQ (l : List ℚ) : ℚ :=
  if (List.insertionSort (fun a b => a ≤ b) l).length % 2 = 1 then
    (List.insertionSort (fun a b => a ≤ b) l).getD
      ((List.insertionSort (fun a b => a ≤ b) l).length / 2) 0
  else
    ((List.insertionSort (fun a b => a ≤ b) l).getD
        ((List.insertionSort (fun a b => a ≤ b) l).length / 2 - 1) 0 +
      (List.insertionSort (fun a b => a ≤ b) l).getD
        ((List.insertionSort (fun a b => a ≤ b) l).length / 2) 0) / 2

/-- The two middle elements of the sorted list (both equal to the middle
element when the length is odd).  `np.median l = (p.1 + p.2) / 2`; we keep
the pair because the diagnostic in `measure_circles` is the median of a
list of square roots, and sorting the squared values sorts the roots. -/
def medianPair (l : List ℚ) : ℚ × ℚ :=
  if (List.insertionSort (fun a b => a ≤ b) l).length % 2 = 1 then
    ((List.insertionSort (fun a b => a ≤ b) l).getD
        ((List.insertionSort (fun a b => a ≤ b) l).length / 2) 0,
      (List.insertionSort (fun a b => a ≤ b) l).getD
        ((List.insertionSort (fun a b => a ≤ b) l).length / 2) 0)
  else
    ((List.insertionSort (fun a b => a ≤ b) l).getD
        ((List.insertionSort (fun a b => a ≤ b) l).length / 2 - 1) 0,
      (List.insertionSort (fun a b => a ≤ b) l).getD
        ((List.insertionSort (fun a b => a ≤ b) l).length / 2) 0)

/-- The recorded measurement of one device (`xfp_metro[iloc]`,
`yfp_metro[iloc]`, `xfp_meas[iloc]`, `yfp_meas[iloc]`). -/
structure DevMeas where
  xm : ℚ
  ym : ℚ
  xc : ℚ
  yc : ℚ
  deriving DecidableEq, Inhabited

/-- The x observations kept after the zero-drop at lines 158-160:
`ii = np.where(x[loc]!=0)` filters both `x` and `y` by the x-mask. -/
def keptXs (d : DevAcc) : List ℚ :=
  (((d.xs.zip d.ys).filter (fun p => decide (p.1 ≠ 0))).map Prod.fst)

/-- The y observations kept by the x-nonzero mask. -/
def keptYs (d : DevAcc) : List ℚ :=
  (((d.xs.zip d.ys).filter (fun p => decide (p.1 ≠ 0))).map Prod.snd)

/-- Lines 154-196, the body of `for iloc,loc in enumerate(x.keys())` for one
device: `none` means the device was skipped (`continue`), leaving its row
of `xfp_metro`/`xfp_meas` at zero.  The composite
`xy2uv`-`fit_circle`-`uv2xy` chain used for positioners is the opaque
parameter `cfit` (external collaborators); `cfit = none` models its
`ValueError`.  The skips, in source order: fewer than 6 accumulated
observations (line 155); non-moving positioner, `pinhole==0` and
`std(x)<1` after the zero-drop (line 161); failed circle fit (line 178);
spurious fitted radius `r < 0.1` (line 184, positioners only). -/
def devRecord (cfit : List ℚ → List ℚ → Option (ℚ × ℚ × ℚ)) (k : ℤ) (d : DevAcc) :
    Option DevMeas :=
  if d.xs.length < 6 then none
  else
    if k % 10 = 0 ∧ varQ (keptXs d) < 1 then none
    else
      if k % 10 = 0 then
        match cfit (keptXs d) (keptYs d) with
        | none => none
        | some (a, b, r) => if r < 1 / 10 then none else some ⟨d.xexp, d.yexp, a, b⟩
      else some ⟨d.xexp, d.yexp, medianQ (keptXs d), medianQ (keptYs d)⟩

/-- Squared offset `dr**2` for one recorded device (the code compares `dr = sqrt(dx²+dy²)`
against 0 and 3; `dr ≠ 0 ↔ dr² ≠ 0` and `dr < 3 ↔ dr² < 9`). -/
def drSqOf (m : DevMeas) : ℚ := (m.xc - m.xm) ^ 2 + (m.yc - m.ym) ^ 2

/-- The per-device arrays after the loop: each key of the accumulator with
its recorded measurement, skipped devices contributing the zero row their
`np.zeros(ndots)` slots keep. -/
def recordsOf (cfit : List ℚ → List ℚ → Option (ℚ × ℚ × ℚ))
    (allspots : List (List CSpot)) : List (ℤ × DevMeas) :=
  (accumulate allspots).map (fun e => (e.1, (devRecord cfit e.1 e.2).getD ⟨0, 0, 0, 0⟩))

/-- One row of the output table `t2` (line 204). -/
structure CircRow where
  location : ℤ
  pinhole : ℤ
  x_fp_metro : ℚ
  y_fp_metro : ℚ
  x_fp : ℚ
  y_fp : ℚ
  deriving DecidableEq, Inhabited

/-- Reconstruct the composite key of an output row (`location*10+pinhole`). -/
def rowKey (r : CircRow) : ℤ := r.location * 10 + r.pinhole

/-- The quantity `(r.x_fp - r.x_fp_metro)² + (r.y_fp - r.y_fp_metro)²`: the squared
fitted-vs-expected offset of an output row. -/
def rowOffsetSq (r : CircRow) : ℚ :=
  (r.x_fp - r.x_fp_metro) ^ 2 + (r.y_fp - r.y_fp_metro) ^ 2

/-- Line 201 and 204: keep the devices with `xfp_metro != 0` and `dr < 3`
(equivalently `dr² < 9`) and lay them out as the output table, splitting
the key into `LOCATION = key // 10` and `PINHOLE_ID = key % 10`. -/
def outputRows (cfit : List ℚ → List ℚ → Option (ℚ × ℚ × ℚ))
    (allspots : List (List CSpot)) : List CircRow :=
  ((recordsOf cfit allspots).filter
      (fun e => decide (e.2.xm ≠ 0) && decide (drSqOf e.2 < 9))).map
    (fun e => ⟨e.1 / 10, e.1 % 10, e.2.xm, e.2.ym, e.2.xc, e.2.yc⟩)

/-- The pipeline `Desimeter.measure_circles`: the first component carries the two middle
squared offsets of the diagnostic median at line 200 (`np.median(dr[dr!=0])`
in mm is `(sqrt p.1 + sqrt p.2)/2`, and the printed value multiplies by
1000 for µm); the second component is the returned table `t2`. -/
def measure_circles (cfit : List ℚ → List ℚ → Option (ℚ × ℚ × ℚ))
    (allspots : List (List CSpot)) : (ℚ × ℚ) × List CircRow :=
  (medianPair (((recordsOf cfit allspots).map (fun e => drSqOf e.2)).filter
      (fun q => decide (q ≠ 0))),
    outputRows cfit allspots)


/-- The effect of one accepted append on a device entry. -/
def appendOne (d : DevAcc) (u : CSpot) : DevAcc :=
  ⟨d.xs ++ [u.x_fp], d.ys ++ [u.y_fp], d.xexp, d.yexp⟩

theorem lookupAcc_nil (k : ℤ) : lookupAcc [] k = none := rfl

theorem lookupAcc_cons (e : ℤ × DevAcc) (rest : DevMap) (k : ℤ) :
    lookupAcc (e :: rest) k = if e.1 = k then some e.2 else lookupAcc rest k := by
  by_cases he : e.1 = k <;> simp [lookupAcc, List.find?, he]

theorem appendPt_nil (k : ℤ) (p : ℚ × ℚ) : appendPt [] k p = [] := rfl

theorem appendPt_cons (e : ℤ × DevAcc) (rest : DevMap) (k : ℤ) (p : ℚ × ℚ) :
    appendPt (e :: rest) k p =
      (if e.1 = k then ((e.1, ⟨e.2.xs ++ [p.1], e.2.ys ++ [p.2], e.2.xexp, e.2.yexp⟩) : ℤ × DevAcc)
       else e) :: appendPt rest k p := rfl

theorem hasKey_nil (k : ℤ) : hasKey [] k = false := rfl

theorem hasKey_cons (e : ℤ × DevAcc) (rest : DevMap) (k : ℤ) :
    hasKey (e :: rest) k = (decide (e.1 = k) || hasKey rest k) := by
  simp [hasKey]

theorem lookupAcc_appendPt_ne (k' k : ℤ) (p : ℚ × ℚ) (hne : k' ≠ k) :
    ∀ acc : DevMap, lookupAcc (appendPt acc k' p) k = lookupAcc acc k := by
  intro acc
  induction acc with
  | nil => rfl
  | cons e rest ih =>
      by_cases he : e.1 = k' <;> by_cases hek : e.1 = k
      · exact absurd (he.symm.trans hek) hne
      all_goals simp [appendPt_cons, lookupAcc_cons, he, hek, ih, hne, Ne.symm hne]

theorem lookupAcc_appendPt_self (k : ℤ) (p : ℚ × ℚ) :
    ∀ acc : DevMap, lookupAcc (appendPt acc k p) k =
      (lookupAcc acc k).map (fun d => ⟨d.xs ++ [p.1], d.ys ++ [p.2], d.xexp, d.yexp⟩) := by
  intro acc
  induction acc with
  | nil => rfl
  | cons e rest ih =>
      by_cases he : e.1 = k <;> simp [appendPt_cons, lookupAcc_cons, he, ih]

theorem lookupAcc_append_single (k' k : ℤ) (d : DevAcc) :
    ∀ acc : DevMap, lookupAcc (acc ++ [(k', d)]) k =
      (match lookupAcc acc k with
       | some v => some v
       | none => if k' = k then some d else none) := by
  intro acc
  induction acc with
  | nil =>
      by_cases hk : k' = k <;> simp [lookupAcc_cons, lookupAcc_nil, hk]
  | cons e rest ih =>
      by_cases he : e.1 = k <;> simp [List.cons_append, lookupAcc_cons, he, ih]

theorem hasKey_iff_lookup (k : ℤ) :
    ∀ acc : DevMap, hasKey acc k = true ↔ (lookupAcc acc k).isSome = true := by
  intro acc
  induction acc with
  | nil => simp [hasKey_nil, lookupAcc_nil]
  | cons e rest ih =>
      by_cases he : e.1 = k <;> simp [hasKey_cons, lookupAcc_cons, he, ih]

theorem expStep_of_countKey_gt (t : List CSpot) (acc : DevMap) (k : ℤ)
    (h : 1 < countKey t k) : expStep t acc k = acc := by
  simp [expStep, h]

theorem lookupAcc_expStep_ne (t : List CSpot) (acc : DevMap) (k' k : ℤ) (hne : k' ≠ k) :
    lookupAcc (expStep t acc k') k = lookupAcc acc k := by
  by_cases hgt : 1 < countKey t k'
  · rw [expStep_of_countKey_gt t acc k' hgt]
  · simp only [expStep, hgt, if_false, ite_false]
    cases hf : t.find? (fun u => decide (devkey u = k')) with
    | none => rfl
    | some u =>
        simp only
        cases hk : hasKey acc k' with
        | true =>
            simp only [hk, if_true, ite_true]
            exact lookupAcc_appendPt_ne k' k _ hne _
        | false =>
            simp only [hk, Bool.false_eq_true, if_false, ite_false]
            rw [lookupAcc_appendPt_ne k' k _ hne _, lookupAcc_append_single]
            cases hl : lookupAcc acc k with
            | none => simp [hne]
            | some v => simp

theorem lookupAcc_expStep_self (t : List CSpot) (acc : DevMap) (k : ℤ) (u : CSpot)
    (hcount : countKey t k = 1)
    (hfind : t.find? (fun v => decide (devkey v = k)) = some u) :
    lookupAcc (expStep t acc k) k =
      some (appendOne ((lookupAcc acc k).getD ⟨[], [], u.x_fp_exp, u.y_fp_exp⟩) u) := by
  have hgt : ¬(1 < countKey t k) := by omega
  simp only [expStep, hgt, if_false, ite_false, hfind]
  cases hk : hasKey acc k with
  | true =>
      have hsome : (lookupAcc acc k).isSome = true := (hasKey_iff_lookup k acc).mp hk
      cases hl : lookupAcc acc k with
      | none => rw [hl] at hsome; simp at hsome
      | some v =>
          simp only [hk, if_true, ite_true]
          rw [lookupAcc_appendPt_self, hl]
          rfl
  | false =>
      have hnone : lookupAcc acc k = none := by
        cases hl : lookupAcc acc k with
        | none => rfl
        | some v =>
            exfalso
            have hs : (lookupAcc acc k).isSome = true := by rw [hl]; rfl
            have := (hasKey_iff_lookup k acc).mpr hs
            rw [hk] at this
            exact Bool.false_ne_true this
      simp only [hk, Bool.false_eq_true, if_false, ite_false]
      rw [lookupAcc_appendPt_self, lookupAcc_append_single, hnone]
      simp [appendOne]

theorem expFold_lookup_of_countKey_gt (t : List CSpot) (k : ℤ) (h : 1 < countKey t k) :
    ∀ (l : List CSpot) (acc : DevMap),
      lookupAcc (expFold t acc l) k = lookupAcc acc k := by
  intro l
  induction l with
  | nil => intro acc; rfl
  | cons s rest ih =>
      intro acc
      by_cases hsel : 0 < s.location
      · by_cases hks : devkey s = k
        · rw [expFold, if_pos hsel, ih, hks, expStep_of_countKey_gt t acc k h]
        · rw [expFold, if_pos hsel, ih, lookupAcc_expStep_ne t acc (devkey s) k hks]
      · rw [expFold, if_neg hsel, ih]

theorem expFold_lookup_of_no_key (t : List CSpot) (k : ℤ) :
    ∀ (l : List CSpot) (acc : DevMap), (∀ s ∈ l, 0 < s.location → devkey s ≠ k) →
      lookupAcc (expFold t acc l) k = lookupAcc acc k := by
  intro l
  induction l with
  | nil => intro acc _; rfl
  | cons s rest ih =>
      intro acc hl
      by_cases hsel : 0 < s.location
      · rw [expFold, if_pos hsel, ih _ (fun v hv => hl v (List.mem_cons_of_mem s hv)),
          lookupAcc_expStep_ne t acc (devkey s) k (hl s (List.mem_cons_self s rest) hsel)]
      · rw [expFold, if_neg hsel, ih _ (fun v hv => hl v (List.mem_cons_of_mem s hv))]

theorem expFold_append (t : List CSpot) :
    ∀ (l1 l2 : List CSpot) (acc : DevMap),
      expFold t acc (l1 ++ l2) = expFold t (expFold t acc l1) l2 := by
  intro l1
  induction l1 with
  | nil => intro l2 acc; rfl
  | cons s rest ih =>
      intro l2 acc
      rw [List.cons_append, expFold, expFold, ih]

theorem split_of_countKey_one (k : ℤ) :
    ∀ (t : List CSpot) (u : CSpot), countKey t k = 1 →
      t.find? (fun v => decide (devkey v = k)) = some u →
      ∃ l1 l2, t = l1 ++ u :: l2 ∧ (∀ v ∈ l1, devkey v ≠ k) ∧ (∀ v ∈ l2, devkey v ≠ k) := by
  intro t
  induction t with
  | nil => intro u hc hf; simp [List.find?] at hf
  | cons s rest ih =>
      intro u hc hf
      by_cases hs : devkey s = k
      · have hu : u = s := by
          simp [List.find?, hs] at hf
          exact hf.symm
        have hrest : ∀ v ∈ rest, devkey v ≠ k := by
          have hlen : (rest.filter (fun v => decide (devkey v = k))).length = 0 := by
            have : countKey (s :: rest) k =
                (rest.filter (fun v => decide (devkey v = k))).length + 1 := by
              simp [countKey, List.filter_cons, hs]
            omega
          intro v hv hvk
          have : v ∈ rest.filter (fun v => decide (devkey v = k)) :=
            List.mem_filter.mpr ⟨hv, by simp [hvk]⟩
          rw [List.length_eq_zero.mp hlen] at this
          simp at this
        exact ⟨[], rest, by simp [hu], by simp, hrest⟩
      · have hf' : rest.find? (fun v => decide (devkey v = k)) = some u := by
          simpa [List.find?, hs] using hf
        have hc' : countKey rest k = 1 := by
          have : countKey (s :: rest) k = countKey rest k := by
            simp [countKey, List.filter_cons, hs]
          omega
        obtain ⟨l1, l2, heq, h1, h2⟩ := ih u hc' hf'
        exact ⟨s :: l1, l2, by simp [heq], by
          intro v hv
          rcases List.mem_cons.mp hv with hv | hv
          · rw [hv]; exact hs
          · exact h1 v hv, h2⟩

/-- Claim C10: inside `measure_circles`, if more than one detection of an
exposure shares a device key, that exposure appends nothing for that device
(the `if ii.size > 1: continue` branch) — its accumulator entry is exactly
what it was before the exposure; a device whose key is carried by exactly
one detection of the exposure (a selected one, `LOCATION>0`) gains exactly
one observation, appended to its point list. -/
theorem procExposure_duplicate_skip (t : List CSpot) (acc : DevMap) (k : ℤ) :
    (1 < countKey t k → lookupAcc (procExposure acc t) k = lookupAcc acc k) ∧
    (∀ u : CSpot, countKey t k = 1 →
      t.find? (fun v => decide (devkey v = k)) = some u → 0 < u.location →
      lookupAcc (procExposure acc t) k =
        some (appendOne ((lookupAcc acc k).getD ⟨[], [], u.x_fp_exp, u.y_fp_exp⟩) u)) := by
  constructor
  · intro hgt
    exact expFold_lookup_of_countKey_gt t k hgt t acc
  · intro u hone hfind hsel
    obtain ⟨l1, l2, heq, h1, h2⟩ := split_of_countKey_one k t u hone hfind
    have hkey : devkey u = k := by
      have := List.find?_some hfind
      simpa using this
    subst heq
    rw [procExposure, expFold_append, expFold, if_pos hsel, hkey]
    rw [expFold_lookup_of_no_key _ k l2 _ (fun v hv _ => h2 v hv)]
    rw [lookupAcc_expStep_self _ _ k u hone hfind]
    rw [expFold_lookup_of_no_key _ k l1 acc (fun v hv _ => h1 v hv)]

/-- An exposure with a duplicated key 11 (two detections of device
location 1, pinhole 1) and a unique key 21, for the C10 witness. -/
def tW10 : List CSpot :=
  [⟨1, 1, 2, 3, 7, 3⟩, ⟨1, 1, 4, 5, 7, 3⟩, ⟨2, 1, 6, 8, 2, 3⟩]

theorem procExposure_duplicate_skip_witness :
    (1 < countKey tW10 11 ∧ lookupAcc (procExposure [] tW10) 11 = lookupAcc [] 11) ∧
    (countKey tW10 21 = 1 ∧ lookupAcc (procExposure [] tW10) 21 =
      some (appendOne ⟨[], [], 2, 3⟩ ⟨2, 1, 6, 8, 2, 3⟩)) := by
  constructor
  · exact ⟨by decide, (procExposure_duplicate_skip tW10 [] 11).1 (by decide)⟩
  · refine ⟨by decide, ?_⟩
    have h := (procExposure_duplicate_skip tW10 [] 21).2 ⟨2, 1, 6, 8, 2, 3⟩
      (by decide) (by decide) (by decide)
    simpa [lookupAcc_nil] using h

theorem accKeys_mapSet (k : ℤ) (d : DevAcc) :
    ∀ acc : DevMap,
      (acc.map (fun e => if e.1 = k then (e.1, d) else e)).map Prod.fst =
        acc.map Prod.fst := by
  intro acc
  induction acc with
  | nil => rfl
  | cons e rest ih =>
      by_cases he : e.1 = k <;> simp [he, ih]

theorem accKeys_appendPt (k : ℤ) (p : ℚ × ℚ) :
    ∀ acc : DevMap, (appendPt acc k p).map Prod.fst = acc.map Prod.fst := by
  intro acc
  induction acc with
  | nil => rfl
  | cons e rest ih =>
      by_cases he : e.1 = k <;> simp [appendPt_cons, he, ih]

theorem hasKey_eq_mem (k : ℤ) :
    ∀ acc : DevMap, hasKey acc k = true ↔ k ∈ acc.map Prod.fst := by
  intro acc
  induction acc with
  | nil => simp [hasKey_nil]
  | cons e rest ih =>
      by_cases he : e.1 = k <;> simp [hasKey_cons, he, ih]
      exact fun h => absurd h.symm he

theorem nodup_keys_append_new (acc : DevMap) (k : ℤ) (d : DevAcc)
    (h : (acc.map Prod.fst).Nodup) (hk : ¬hasKey acc k = true) :
    ((acc ++ [(k, d)]).map Prod.fst).Nodup := by
  have hnotin : k ∉ acc.map Prod.fst := fun hmem => hk ((hasKey_eq_mem k acc).mpr hmem)
  rw [List.map_append]
  refine List.Nodup.append h (List.nodup_singleton k) ?_
  intro a ha hb
  simp only [List.map_cons, List.map_nil, List.mem_singleton] at hb
  rw [hb] at ha
  exact hnotin ha

theorem nodup_keys_setEntry (k : ℤ) (d : DevAcc) (acc : DevMap)
    (h : (acc.map Prod.fst).Nodup) : ((setEntry acc k d).map Prod.fst).Nodup := by
  rw [setEntry]
  cases hk : hasKey acc k with
  | true =>
      rw [if_pos rfl, accKeys_mapSet]
      exact h
  | false =>
      simp only [Bool.false_eq_true, if_false, ite_false]
      exact nodup_keys_append_new acc k d h (by rw [hk]; exact Bool.false_ne_true)

theorem nodup_keys_expStep (t : List CSpot) (k : ℤ) (acc : DevMap)
    (h : (acc.map Prod.fst).Nodup) : ((expStep t acc k).map Prod.fst).Nodup := by
  rw [expStep]
  by_cases hgt : 1 < countKey t k
  · simpa [hgt] using h
  · simp only [hgt, if_false, ite_false]
    cases hf : t.find? (fun u => decide (devkey u = k)) with
    | none => exact h
    | some u =>
        simp only
        cases hk : hasKey acc k with
        | true => simpa [accKeys_appendPt] using h
        | false =>
            simp only [Bool.false_eq_true, if_false, ite_false]
            rw [accKeys_appendPt]
            exact nodup_keys_append_new acc k _ h (by rw [hk]; exact Bool.false_ne_true)

theorem nodup_keys_expFold (t : List CSpot) :
    ∀ (l : List CSpot) (acc : DevMap), (acc.map Prod.fst).Nodup →
      ((expFold t acc l).map Prod.fst).Nodup := by
  intro l
  induction l with
  | nil => intro acc h; exact h
  | cons s rest ih =>
      intro acc h
      rw [expFold]
      by_cases hsel : 0 < s.location
      · rw [if_pos hsel]
        exact ih _ (nodup_keys_expStep t (devkey s) acc h)
      · rw [if_neg hsel]
        exact ih _ h

theorem nodup_keys_initFold (t : List CSpot) :
    ∀ (l : List CSpot) (acc : DevMap), (acc.map Prod.fst).Nodup →
      ((initFold t acc l).map Prod.fst).Nodup := by
  intro l
  induction l with
  | nil => intro acc h; exact h
  | cons s rest ih =>
      intro acc h
      rw [initFold]
      by_cases hsel : 0 < s.location
      · rw [if_pos hsel]
        exact ih _ (nodup_keys_setEntry (devkey s) _ acc h)
      · rw [if_neg hsel]
        exact ih _ h

theorem nodup_keys_foldl_proc :
    ∀ (ts : List (List CSpot)) (acc : DevMap), (acc.map Prod.fst).Nodup →
      ((ts.foldl procExposure acc).map Prod.fst).Nodup := by
  intro ts
  induction ts with
  | nil => intro acc h; exact h
  | cons t rest ih =>
      intro acc h
      rw [List.foldl_cons]
      exact ih _ (nodup_keys_expFold t t acc h)

theorem nodup_keys_accumulate (allspots : List (List CSpot)) :
    ((accumulate allspots).map Prod.fst).Nodup := by
  cases allspots with
  | nil => exact List.nodup_nil
  | cons t rest =>
      exact nodup_keys_foldl_proc rest _
        (nodup_keys_expFold t t _ (nodup_keys_initFold t t [] List.nodup_nil))

theorem eq_of_mem_nodup_keys :
    ∀ (acc : DevMap) (k : ℤ) (d d' : DevAcc), (acc.map Prod.fst).Nodup →
      (k, d) ∈ acc → (k, d') ∈ acc → d = d' := by
  intro acc
  induction acc with
  | nil => intro k d d' _ hd; simp at hd
  | cons e rest ih =>
      intro k d d' h hd hd'
      rw [List.map_cons, List.nodup_cons] at h
      rcases List.mem_cons.mp hd with hd | hd <;> rcases List.mem_cons.mp hd' with hd' | hd'
      · rw [← hd'] at hd
        exact congrArg Prod.snd hd
      · exfalso
        have he1 : e.1 = k := by rw [← hd]
        apply h.1
        rw [he1]
        simpa using List.mem_map_of_mem Prod.fst hd'
      · exfalso
        have he1 : e.1 = k := by rw [← hd']
        apply h.1
        rw [he1]
        simpa using List.mem_map_of_mem Prod.fst hd
      · exact ih k d d' h.2 hd hd'

theorem of_mem_outputRows (cfit : List ℚ → List ℚ → Option (ℚ × ℚ × ℚ))
    (allspots : List (List CSpot)) (r : CircRow)
    (hr : r ∈ outputRows cfit allspots) :
    ∃ k d, (k, d) ∈ accumulate allspots ∧
      ((devRecord cfit k d).getD ⟨0, 0, 0, 0⟩).xm ≠ 0 ∧
      drSqOf ((devRecord cfit k d).getD ⟨0, 0, 0, 0⟩) < 9 ∧
      r = ⟨k / 10, k % 10, ((devRecord cfit k d).getD ⟨0, 0, 0, 0⟩).xm,
        ((devRecord cfit k d).getD ⟨0, 0, 0, 0⟩).ym,
        ((devRecord cfit k d).getD ⟨0, 0, 0, 0⟩).xc,
        ((devRecord cfit k d).getD ⟨0, 0, 0, 0⟩).yc⟩ := by
  simp only [outputRows] at hr
  obtain ⟨e, he, heq⟩ := List.mem_map.mp hr
  obtain ⟨he1, he2⟩ := List.mem_filter.mp he
  simp only [recordsOf] at he1
  obtain ⟨a, ha, hae⟩ := List.mem_map.mp he1
  subst hae
  simp only [Bool.and_eq_true, decide_eq_true_eq] at he2
  exact ⟨a.1, a.2, ha, he2.1, he2.2, heq.symm⟩

theorem rowKey_mk (k : ℤ) (a b c d : ℚ) :
    rowKey ⟨k / 10, k % 10, a, b, c, d⟩ = k := by
  simp only [rowKey]
  omega

/-- Claim C2: a device (key `LOCATION*10+PINHOLE_ID`) with fewer than 6
accumulated observations is skipped and contributes no row to the output
table of `measure_circles`; a positioner-center device (`pinhole_id = 0`)
with at least 6 observations whose x-spread after the zero-drop is below
1 mm (`std < 1`, equivalently `var < 1`) is skipped as non-moving; the same
data under `pinhole_id = 1` is not skipped by the non-moving rule — it is
recorded with its median position whatever its spread. -/
theorem measure_circles_skip_policies (cfit : List ℚ → List ℚ → Option (ℚ × ℚ × ℚ))
    (allspots : List (List CSpot)) (L p : ℤ) (d : DevAcc)
    (hp0 : 0 ≤ p) (hp9 : p < 10)
    (hmem : (10 * L + p, d) ∈ accumulate allspots) :
    (d.xs.length < 6 → devRecord cfit (10 * L + p) d = none ∧
      ∀ r ∈ (measure_circles cfit allspots).2, rowKey r ≠ 10 * L + p) ∧
    (p = 0 → 6 ≤ d.xs.length → varQ (keptXs d) < 1 →
      devRecord cfit (10 * L + p) d = none) ∧
    (p = 1 → 6 ≤ d.xs.length →
      devRecord cfit (10 * L + p) d =
        some ⟨d.xexp, d.yexp, medianQ (keptXs d), medianQ (keptYs d)⟩) := by
  have hmod : (10 * L + p) % 10 = p := by omega
  refine ⟨?_, ?_, ?_⟩
  · intro h6
    have hrec : devRecord cfit (10 * L + p) d = none := by
      simp [devRecord, h6]
    refine ⟨hrec, ?_⟩
    intro r hr hkey
    obtain ⟨k', d', hmem', hxm, hlt, heq⟩ := of_mem_outputRows cfit allspots r hr
    have hk' : k' = 10 * L + p := by
      rw [heq, rowKey_mk] at hkey
      exact hkey
    subst hk'
    have hd : d' = d :=
      eq_of_mem_nodup_keys _ _ _ _ (nodup_keys_accumulate allspots) hmem' hmem
    rw [hd, hrec] at hxm
    simp at hxm
  · intro hp h6 hvar
    subst hp
    simp [devRecord, hmod, hvar, show ¬(d.xs.length < 6) from by omega]
  · intro hp h6
    subst hp
    simp [devRecord, hmod, show ¬(d.xs.length < 6) from by omega]

/-- Claim C6: a device whose fitted-vs-expected offset exceeds 3 mm
contributes no row to the output table of `measure_circles` (the function
is total, so the exclusion raises nothing), and every row of the output
table has an offset of at most 3 mm (the code's strict `dr < 3` gate
implies the claimed `≤ 3`). -/
theorem measure_circles_offset_gate (cfit : List ℚ → List ℚ → Option (ℚ × ℚ × ℚ))
    (allspots : List (List CSpot)) :
    (∀ (k : ℤ) (d : DevAcc) (m : DevMeas), (k, d) ∈ accumulate allspots →
      devRecord cfit k d = some m → 3 < Real.sqrt ((drSqOf m : ℚ) : ℝ) →
      ∀ r ∈ (measure_circles cfit allspots).2, rowKey r ≠ k) ∧
    (∀ r ∈ (measure_circles cfit allspots).2,
      Real.sqrt ((rowOffsetSq r : ℚ) : ℝ) ≤ 3) := by
  have hsqrt9 : Real.sqrt 9 = 3 := by
    rw [show (9 : ℝ) = 3 ^ 2 by norm_num]
    exact Real.sqrt_sq (by norm_num)
  constructor
  · intro k d m hmem hrec hbig r hr hkey
    obtain ⟨k', d', hmem', hxm, hlt, heq⟩ := of_mem_outputRows cfit allspots r hr
    have hk' : k' = k := by
      rw [heq, rowKey_mk] at hkey
      exact hkey
    subst hk'
    have hd : d' = d :=
      eq_of_mem_nodup_keys _ _ _ _ (nodup_keys_accumulate allspots) hmem' hmem
    rw [hd, hrec] at hlt
    simp only [Option.getD_some] at hlt
    have hle : Real.sqrt ((drSqOf m : ℚ) : ℝ) ≤ 3 := by
      rw [← hsqrt9]
      apply Real.sqrt_le_sqrt
      have hcast : ((drSqOf m : ℚ) : ℝ) < 9 := by exact_mod_cast hlt
      linarith
    linarith
  · intro r hr
    obtain ⟨k', d', hmem', hxm, hlt, heq⟩ := of_mem_outputRows cfit allspots r hr
    have hro : rowOffsetSq r =
        drSqOf ((devRecord cfit k' d').getD ⟨0, 0, 0, 0⟩) := by
      rw [heq]
      simp [rowOffsetSq, drSqOf]
    rw [hro, ← hsqrt9]
    apply Real.sqrt_le_sqrt
    have hcast : ((drSqOf ((devRecord cfit k' d').getD ⟨0, 0, 0, 0⟩) : ℚ) : ℝ) < 9 := by
      exact_mod_cast hlt
    linarith

/-- Claim C9: a fiducial-pinhole device (`pinhole_id ≥ 1`) passing the
observation-count filter is recorded with the coordinate-wise median of its
accumulated observations, and its record does not depend on the circle-fit
collaborator at all — no warp, no fit, and no minimum-radius exclusion
touch it (those live in the `pinhole == 0` branch only). -/
theorem measure_circles_fiducial_median
    (cfit cfit2 : List ℚ → List ℚ → Option (ℚ × ℚ × ℚ)) (L p : ℤ) (d : DevAcc)
    (hp1 : 1 ≤ p) (hp9 : p < 10) (h6 : 6 ≤ d.xs.length) :
    devRecord cfit (10 * L + p) d =
      some ⟨d.xexp, d.yexp, medianQ (keptXs d), medianQ (keptYs d)⟩ ∧
    devRecord cfit (10 * L + p) d = devRecord cfit2 (10 * L + p) d := by
  have hmod : (10 * L + p) % 10 = p := by omega
  have hpz : ¬(p = 0) := by omega
  constructor <;> simp [devRecord, hmod, hpz, show ¬(d.xs.length < 6) from by omega]

theorem diag_list_eq (cfit : List ℚ → List ℚ → Option (ℚ × ℚ × ℚ)) :
    ∀ l : DevMap,
      ((l.map (fun e => ((e.1, (devRecord cfit e.1 e.2).getD ⟨0, 0, 0, 0⟩) : ℤ × DevMeas))).map
          (fun e => drSqOf e.2)).filter (fun q => decide (q ≠ 0)) =
        ((l.filterMap (fun e => (devRecord cfit e.1 e.2).map drSqOf)).filter
          (fun q => decide (q ≠ 0))) := by
  intro l
  induction l with
  | nil => rfl
  | cons e rest ih =>
      cases hrec : devRecord cfit e.1 e.2 with
      | none =>
          have hz : drSqOf (⟨0, 0, 0, 0⟩ : DevMeas) = 0 := by norm_num [drSqOf]
          simp only [List.map_cons, List.filter_cons, List.filterMap_cons, hrec,
            Option.getD_none, Option.map_none']
          have hcond : ¬((decide (drSqOf (⟨0, 0, 0, 0⟩ : DevMeas) ≠ 0)) = true) := by
            rw [hz]
            decide
          rw [if_neg hcond]
          exact ih
      | some m =>
          simp only [List.map_cons, List.filterMap_cons, hrec,
            Option.getD_some, Option.map_some']
          rw [List.filter_cons, List.filter_cons, ih]

/-- Claim C7 (amended): the single median radial-offset diagnostic of
`measure_circles` is the median over the devices with a *nonzero* recorded
offset — the devices that survived the accumulation-stage skips, including
those the 3 mm outlier gate later excludes from the output table and
excluding any device whose recorded position exactly equals its expected
position — multiplied by 1000 for µm (the returned pair holds the two
middle squared offsets: the printed value is
`1000*(sqrt p.1 + sqrt p.2)/2`); the diagnostic plays no part in building
the output table, which equals `outputRows` defined without it. -/
theorem median_diag_nonzero_offsets (cfit : List ℚ → List ℚ → Option (ℚ × ℚ × ℚ))
    (allspots : List (List CSpot)) :
    (measure_circles cfit allspots).1 =
      medianPair (((accumulate allspots).filterMap
        (fun e => (devRecord cfit e.1 e.2).map drSqOf)).filter
          (fun q => decide (q ≠ 0))) ∧
    (measure_circles cfit allspots).2 = outputRows cfit allspots := by
  exact ⟨congrArg medianPair (diag_list_eq cfit (accumulate allspots)), rfl⟩

/-- A fit collaborator that always fails (`ValueError` path); the example
devices are fiducials, so it is never consulted. -/
def cfNone : List ℚ → List ℚ → Option (ℚ × ℚ × ℚ) := fun _ _ => none

/-- Fiducial device location 1, pinhole 1: observed at (2,3), expected at
(7,3) — recorded offset 5 mm, excluded from the output by the 3 mm gate. -/
def cspotA : CSpot := ⟨1, 1, 2, 3, 7, 3⟩

/-- Fiducial device location 2, pinhole 1: observed at (2.5,3), expected at
(2,3) — recorded offset 0.5 mm, kept in the output. -/
def cspotB : CSpot := ⟨2, 1, 5/2, 3, 2, 3⟩

/-- Six identical exposures of the two fiducials above. -/
def exposuresC : List (List CSpot) := List.replicate 6 [cspotA, cspotB]

/-- What `accumulate exposuresC` holds for device key 11. -/
def devAccA : DevAcc := ⟨[2, 2, 2, 2, 2, 2], [3, 3, 3, 3, 3, 3], 7, 3⟩

/-- The single row of `measure_circles cfNone exposuresC`. -/
def circRowB : CircRow := ⟨2, 1, 2, 3, 5/2, 3⟩

/-- The C7 claim's diagnostic, following the claim's words: the median
radial offset taken over all non-excluded devices, i.e. over the rows of
the output table (as its two middle squared offsets). -/
def outputMedianPair (cfit : List ℚ → List ℚ → Option (ℚ × ℚ × ℚ))
    (allspots : List (List CSpot)) : ℚ × ℚ :=
  medianPair (((measure_circles cfit allspots).2).map rowOffsetSq)

unseal Rat.add Rat.sub Rat.mul Rat.inv in
/-- Claim C7 counterexample: on `exposuresC` the code's diagnostic
(`np.median(dr[dr!=0])*1000`) is `1000*(sqrt(1/4)+sqrt(25))/2 = 2750` µm —
it includes device 11, whose 5 mm offset the 3 mm outlier gate excludes
from the output table — while the median offset over the non-excluded
(output) devices is 500 µm; so the diagnostic is not taken over the
non-excluded devices. -/
theorem median_diag_not_over_output_devices :
    1000 * ((Real.sqrt (((measure_circles cfNone exposuresC).1.1 : ℚ) : ℝ) +
        Real.sqrt (((measure_circles cfNone exposuresC).1.2 : ℚ) : ℝ)) / 2) ≠
    1000 * ((Real.sqrt (((outputMedianPair cfNone exposuresC).1 : ℚ) : ℝ) +
        Real.sqrt (((outputMedianPair cfNone exposuresC).2 : ℚ) : ℝ)) / 2) := by
  have h1 : (measure_circles cfNone exposuresC).1 = (1/4, 25) := by decide
  have h2 : outputMedianPair cfNone exposuresC = (1/4, 1/4) := by decide
  rw [h1, h2]
  have hs1 : Real.sqrt (((1/4 : ℚ) : ℝ)) = 1/2 := by
    rw [show (((1/4 : ℚ) : ℝ)) = (1/2 : ℝ) ^ 2 by norm_num]
    exact Real.sqrt_sq (by norm_num)
  have hs2 : Real.sqrt (((25 : ℚ) : ℝ)) = 5 := by
    rw [show (((25 : ℚ) : ℝ)) = (5 : ℝ) ^ 2 by norm_num]
    exact Real.sqrt_sq (by norm_num)
  simp only [hs1, hs2]
  norm_num

unseal Rat.add Rat.sub Rat.mul Rat.inv in
theorem measure_circles_skip_policies_witness :
    (10 * 1 + 1, devAccA) ∈ accumulate exposuresC ∧
    devRecord cfNone (10 * 1 + 1) devAccA = some ⟨7, 3, 2, 3⟩ := by
  refine ⟨by decide, ?_⟩
  have h := (measure_circles_skip_policies cfNone exposuresC 1 1 devAccA
    (by decide) (by decide) (by decide)).2.2 rfl (by decide)
  rw [h]
  decide

unseal Rat.add Rat.sub Rat.mul Rat.inv in
theorem measure_circles_offset_gate_witness :
    rowKey circRowB ≠ 10 * 1 + 1 ∧
    Real.sqrt ((rowOffsetSq circRowB : ℚ) : ℝ) ≤ 3 := by
  have h := measure_circles_offset_gate cfNone exposuresC
  constructor
  · refine h.1 (10 * 1 + 1) devAccA ⟨7, 3, 2, 3⟩ (by decide) (by decide) ?_ circRowB (by decide)
    have hd : ((drSqOf ⟨7, 3, 2, 3⟩ : ℚ) : ℝ) = 25 := by
      norm_num [drSqOf]
    rw [hd, show (25 : ℝ) = 5 ^ 2 by norm_num, Real.sqrt_sq (by norm_num)]
    norm_num
  · exact h.2 circRowB (by decide)

/-- A fit collaborator returning a tiny radius (`r < 0.1`); a positioner
would be dropped by the minimum-radius rule, a fiducial must not be. -/
def cfTiny : List ℚ → List ℚ → Option (ℚ × ℚ × ℚ) := fun _ _ => some (0, 0, 1/100)

unseal Rat.add Rat.sub Rat.mul Rat.inv in
theorem measure_circles_fiducial_median_witness :
    devRecord cfTiny (10 * 1 + 1) devAccA = devRecord cfNone (10 * 1 + 1) devAccA ∧
    devRecord cfTiny (10 * 1 + 1) devAccA = some ⟨7, 3, 2, 3⟩ := by
  have h := measure_circles_fiducial_median cfTiny cfNone 1 1 devAccA
    (by decide) (by decide) (by decide)
  refine ⟨h.2, ?_⟩
  rw [h.1]
  decide

/-! ## Model of fiberassign.py

One target as seen by `_measure_fieldrot_deg`: hour angle, declination and
focal-plane position.  `hadec2xy` (external, at the fixed telescope
pointing of the call) is the opaque parameter `H`. -/
structure FTarget where
  ha : ℚ
  dec : ℚ
  xfp : ℚ
  yfp : ℚ
  deriving DecidableEq, Inhabited

/-- The selection mask of fiberassign.py line 11 restricted to its radius
part, `xfp**2 + yfp**2 > 10**2`: in the rational model no value is NaN, so
the `~isnan` factor of the mask is identically true. -/
def fieldrotOk (t : FTarget) : Bool := decide (100 < t.xfp ^ 2 + t.yfp ^ 2)

/-- One target's term of the mean at line 13:
`(yfp*x2 - xfp*y2)/sqrt((xfp**2+yfp**2)*(x2**2+y2**2))` — the sine of the
rotation angle between the focal-plane vector and the projected sky
vector. -/
noncomputable def rotEstimate (H : ℚ → ℚ → ℚ × ℚ) (t : FTarget) : ℝ :=
  ((t.yfp * (H t.ha t.dec).1 - t.xfp * (H t.ha t.dec).2 : ℚ) : ℝ) /
    Real.sqrt (((t.xfp ^ 2 + t.yfp ^ 2) * ((H t.ha t.dec).1 ^ 2 + (H t.ha t.dec).2 ^ 2) : ℚ) : ℝ)

/-- The solver helper `_measure_fieldrot_deg` (lines 9-13): `np.rad2deg` of the plain
`np.mean` of the per-target estimates over the selected targets (an empty
selection, NaN in numpy, is the `x/0 = 0` convention here; no claim
exercises it). -/
noncomputable def measure_fieldrot_deg (H : ℚ → ℚ → ℚ × ℚ) (ts : List FTarget) : ℝ :=
  (180 / Real.pi) * ((((ts.filter fieldrotOk).map (rotEstimate H)).sum) /
    (((ts.filter fieldrotOk).length : ℝ)))

/-- The flux-weighted mean the C3 claim describes, following the claim's
words: each target carries a flux, and the rotation estimate is averaged
with flux weights over the same radius selection. -/
noncomputable def fluxMeanFieldrotDeg (H : ℚ → ℚ → ℚ × ℚ)
    (ts : List (FTarget × ℚ)) : ℝ :=
  (180 / Real.pi) *
    ((((ts.filter (fun p => fieldrotOk p.1)).map
        (fun p => (p.2 : ℝ) * rotEstimate H p.1)).sum) /
      (((ts.filter (fun p => fieldrotOk p.1)).map (fun p => ((p.2 : ℝ)))).sum))

/-- The numerically estimated 2x2 Jacobian of fiberassign.py lines 33-43:
`(dxdra, dxddec, dydra, dyddec)`, from 1-arcsecond (`eps = 1/3600` degree)
perturbations of the tile RA/Dec.  The sky-to-focal-plane chain
`radec2tan` + `tan2fp` (external) is the opaque parameter `P`, applied at
the current telescope pointing `(telra, teldec)`. -/
def jacobian (P : ℚ → ℚ → ℚ → ℚ → ℚ × ℚ) (tra tdec telra teldec : ℚ) : ℚ × ℚ × ℚ × ℚ :=
  (((P (tra + 1/3600) tdec telra teldec).1 - (P tra tdec telra teldec).1) / (1/3600),
    ((P tra (tdec + 1/3600) telra teldec).1 - (P tra tdec telra teldec).1) / (1/3600),
    ((P (tra + 1/3600) tdec telra teldec).2 - (P tra tdec telra teldec).2) / (1/3600),
    ((P tra (tdec + 1/3600) telra teldec).2 - (P tra tdec telra teldec).2) / (1/3600))

/-- Determinant of the Jacobian: `np.linalg.inv(J)` at line 46 raises
`LinAlgError` exactly when it vanishes. -/
def jacDet (P : ℚ → ℚ → ℚ → ℚ → ℚ × ℚ) (tra tdec telra teldec : ℚ) : ℚ :=
  (jacobian P tra tdec telra teldec).1 * (jacobian P tra tdec telra teldec).2.2.2 -
    (jacobian P tra tdec telra teldec).2.1 * (jacobian P tra tdec telra teldec).2.2.1

/-- One iteration of the pointing loop (lines 27-53): project the tile
center, build the Jacobian, solve `J·X = (xfp_0, yfp_0)` by the explicit
2x2 inverse, and add the solution to the telescope pointing.  A singular
Jacobian is the `LinAlgError` of `np.linalg.inv`, modelled as `none`. -/
def newtonStep (P : ℚ → ℚ → ℚ → ℚ → ℚ × ℚ) (tra tdec telra teldec : ℚ) :
    Option (ℚ × ℚ) :=
  if jacDet P tra tdec telra teldec = 0 then none
  else
    some (telra +
        ((jacobian P tra tdec telra teldec).2.2.2 * (P tra tdec telra teldec).1 -
          (jacobian P tra tdec telra teldec).2.1 * (P tra tdec telra teldec).2) /
          jacDet P tra tdec telra teldec,
      teldec +
        (-(jacobian P tra tdec telra teldec).2.2.1 * (P tra tdec telra teldec).1 +
          (jacobian P tra tdec telra teldec).1 * (P tra tdec telra teldec).2) /
          jacDet P tra tdec telra teldec)

/-- The loop `for iteration in range(2)` (line 27): the pointing loop, a fold of
`newtonStep` over `range(2)`, an uncaught exception propagating as
`none`. -/
def solvePointing (P : ℚ → ℚ → ℚ → ℚ → ℚ × ℚ) (tra tdec : ℚ) : Option (ℚ × ℚ) :=
  (List.range 2).foldl
    (fun st _ => st.bind (fun q => newtonStep P tra tdec q.1 q.2)) (some (tra, tdec))

/-- Running `n` pointing iterations, for comparison with the fixed count. -/
def iterNewton (P : ℚ → ℚ → ℚ → ℚ → ℚ × ℚ) (tra tdec : ℚ) : Nat → Option (ℚ × ℚ)
  | 0 => some (tra, tdec)
  | n + 1 => (iterNewton P tra tdec n).bind (fun q => newtonStep P tra tdec q.1 q.2)

/-- A sky target passed to `fiberassign_radec2xy`. -/
structure PTarget where
  ra : ℚ
  dec : ℚ
  deriving DecidableEq, Inhabited

/-- The function `fiberassign_radec2xy` (lines 16-77): solve the pointing (two Newton
iterations), project all targets, measure the achieved field rotation via
`_measure_fieldrot_deg(-ra, dec, -tile_ra, tile_dec, ...)`, and rotate the
projected coordinates by `tile_fieldrot - tmp_fieldrot` using `sincosd`
(external trig, the parameter `sincos`; `s,c = sincosd(drot)` and
`xfp = c*x - s*y`, `yfp = s*x + c*y`). -/
noncomputable def fiberassignRadec2xy (P : ℚ → ℚ → ℚ → ℚ → ℚ × ℚ)
    (H : ℚ → ℚ → ℚ × ℚ) (sincos : ℝ → ℝ × ℝ) (targets : List PTarget)
    (tile_ra tile_dec tile_fieldrot : ℚ) : Option (List (ℝ × ℝ)) :=
  match solvePointing P tile_ra tile_dec with
  | none => none
  | some tel =>
      let tmp := targets.map (fun t => P t.ra t.dec tel.1 tel.2)
      let fts := (targets.zip tmp).map
        (fun q => (⟨-q.1.ra, q.1.dec, q.2.1, q.2.2⟩ : FTarget))
      let drot := (tile_fieldrot : ℝ) - measure_fieldrot_deg H fts
      some (tmp.map (fun q =>
        ((sincos drot).2 * (q.1 : ℝ) - (sincos drot).1 * (q.2 : ℝ),
          (sincos drot).1 * (q.1 : ℝ) + (sincos drot).2 * (q.2 : ℝ))))

/-- Claim C4: the pointing loop performs exactly two Newton iterations —
`solvePointing` is definitionally the two-fold composition of `newtonStep`
and equals `iterNewton 2`; the count is the constant 2, independent of any
residual (even a zero offset runs the second step), and the function is
total, so the loop terminates on every input. -/
theorem solvePointing_two_iterations (P : ℚ → ℚ → ℚ → ℚ → ℚ × ℚ) (tra tdec : ℚ) :
    solvePointing P tra tdec = iterNewton P tra tdec 2 ∧
    solvePointing P tra tdec =
      (newtonStep P tra tdec tra tdec).bind (fun q => newtonStep P tra tdec q.1 q.2) ∧
    (∀ n : Nat, iterNewton P tra tdec (n + 1) =
      (iterNewton P tra tdec n).bind (fun q => newtonStep P tra tdec q.1 q.2)) :=
  ⟨rfl, rfl, fun _ => rfl⟩

/-- Claim C8: a singular Jacobian in either pointing iteration makes the
linear solve fail, and `fiberassign_radec2xy` has no handler for it — the
failure propagates out of the whole function (`none`), aborting the
computation for that tile; no local recovery path exists. -/
theorem fiberassign_singular_jacobian_propagates (P : ℚ → ℚ → ℚ → ℚ → ℚ × ℚ)
    (H : ℚ → ℚ → ℚ × ℚ) (sincos : ℝ → ℝ × ℝ) (targets : List PTarget)
    (tra tdec frot : ℚ) :
    (jacDet P tra tdec tra tdec = 0 →
      fiberassignRadec2xy P H sincos targets tra tdec frot = none) ∧
    (∀ q : ℚ × ℚ, newtonStep P tra tdec tra tdec = some q →
      jacDet P tra tdec q.1 q.2 = 0 →
      fiberassignRadec2xy P H sincos targets tra tdec frot = none) := by
  have hunroll : solvePointing P tra tdec =
      (newtonStep P tra tdec tra tdec).bind (fun q => newtonStep P tra tdec q.1 q.2) := rfl
  constructor
  · intro h
    have hstep : newtonStep P tra tdec tra tdec = none := by
      simp [newtonStep, h]
    have hsolve : solvePointing P tra tdec = none := by
      rw [hunroll, hstep]
      rfl
    simp [fiberassignRadec2xy, hsolve]
  · intro q hq h
    have hstep2 : newtonStep P tra tdec q.1 q.2 = none := by
      simp [newtonStep, h]
    have hsolve : solvePointing P tra tdec = none := by
      rw [hunroll, hq, Option.some_bind, hstep2]
    simp [fiberassignRadec2xy, hsolve]

/-- A constant projection: both numeric derivatives vanish, so the
Jacobian is singular. -/
def pConst : ℚ → ℚ → ℚ → ℚ → ℚ × ℚ := fun _ _ _ _ => (1, 1)

/-- A trivial `hadec2xy` stand-in for witnesses. -/
def hZero : ℚ → ℚ → ℚ × ℚ := fun _ _ => (0, 1)

/-- A trivial `sincosd` stand-in for witnesses. -/
def scZero : ℝ → ℝ × ℝ := fun _ => (0, 1)

unseal Rat.add Rat.sub Rat.mul Rat.inv in
theorem fiberassign_singular_jacobian_propagates_witness :
    jacDet pConst 0 0 0 0 = 0 ∧
    fiberassignRadec2xy pConst hZero scZero [] 0 0 0 = none := by
  have hd : jacDet pConst 0 0 0 0 = 0 := by decide
  exact ⟨hd,
    (fiberassign_singular_jacobian_propagates pConst hZero scZero [] 0 0 0).1 hd⟩

/-- Claim C3 (amended): the achieved field rotation is `rad2deg` of the
*unweighted* arithmetic mean of the per-target rotation estimates over the
targets whose focal-plane radius strictly exceeds 10 mm (in the rational
model no coordinate is NaN, so the mask's `~isnan` factor is vacuous);
targets at radius ≤ 10 mm do not influence the value; and the value
coincides with a flux-weighted mean only in the uniform-flux case — no
flux enters the computation (the function receives none). -/
theorem measure_fieldrot_unweighted_mean (H : ℚ → ℚ → ℚ × ℚ) :
    (∀ ts : List FTarget, measure_fieldrot_deg H ts =
      (180 / Real.pi) * ((((ts.filter fieldrotOk).map (rotEstimate H)).sum) /
        (((ts.filter fieldrotOk).length : ℝ)))) ∧
    (∀ (t0 : FTarget) (ts : List FTarget), t0.xfp ^ 2 + t0.yfp ^ 2 ≤ 100 →
      measure_fieldrot_deg H (t0 :: ts) = measure_fieldrot_deg H ts) ∧
    (∀ (ts : List FTarget) (w : ℚ), w ≠ 0 →
      fluxMeanFieldrotDeg H (ts.map (fun t => (t, w))) = measure_fieldrot_deg H ts) := by
  refine ⟨fun ts => rfl, ?_, ?_⟩
  · intro t0 ts h
    have hok : fieldrotOk t0 = false := by
      simp only [fieldrotOk, decide_eq_false_iff_not, not_lt]
      exact h
    simp only [measure_fieldrot_deg, List.filter_cons, hok, Bool.false_eq_true, if_false,
      ite_false]
  · intro ts w hw
    have hfil : (ts.map (fun t => (t, w))).filter (fun p => fieldrotOk p.1) =
        (ts.filter fieldrotOk).map (fun t => (t, w)) := by
      induction ts with
      | nil => rfl
      | cons a l ih =>
          by_cases ha : fieldrotOk a <;> simp [List.filter_cons, ha, ih]
    simp only [fluxMeanFieldrotDeg, measure_fieldrot_deg, hfil, List.map_map]
    have hw' : (w : ℝ) ≠ 0 := by exact_mod_cast hw
    have hnum : ((ts.filter fieldrotOk).map
        ((fun p : FTarget × ℚ => (p.2 : ℝ) * rotEstimate H p.1) ∘ (fun t => (t, w)))).sum =
        (w : ℝ) * ((ts.filter fieldrotOk).map (rotEstimate H)).sum := by
      simp only [Function.comp_def]
      exact List.sum_map_mul_left _ _ _
    have hden : ((ts.filter fieldrotOk).map
        ((fun p : FTarget × ℚ => ((p.2 : ℝ))) ∘ (fun t => (t, w)))).sum =
        (((ts.filter fieldrotOk).length : ℝ)) * (w : ℝ) := by
      simp only [Function.comp_def]
      induction (ts.filter fieldrotOk) with
      | nil => simp
      | cons a l ih =>
          simp only [List.map_cons, List.sum_cons, List.length_cons, ih]
          push_cast
          ring
    rw [hnum, hden, mul_comm (((ts.filter fieldrotOk).length : ℝ)) ((w : ℝ)),
      mul_div_mul_left _ _ hw']

/-- A near-center target (radius √2 mm ≤ 10 mm) for the C3 witness. -/
def ftNear : FTarget := ⟨0, 0, 1, 1⟩

theorem measure_fieldrot_unweighted_mean_witness :
    (ftNear.xfp ^ 2 + ftNear.yfp ^ 2 ≤ 100) ∧
    measure_fieldrot_deg hZero [ftNear] = measure_fieldrot_deg hZero [] := by
  have h : ftNear.xfp ^ 2 + ftNear.yfp ^ 2 ≤ 100 := by norm_num [ftNear]
  exact ⟨h, (measure_fieldrot_unweighted_mean hZero).2.1 ftNear [] h⟩

/-- An `hadec2xy` stand-in mapping the first counterexample target to
(0,1) and every other direction to (1,0). -/
def hRot : ℚ → ℚ → ℚ × ℚ := fun ha _ => if ha = -1 then (0, 1) else (1, 0)

/-- Target on the +x axis at 20 mm whose sky vector points along +y:
rotation estimate -1. -/
def ft1 : FTarget := ⟨-1, 0, 20, 0⟩

/-- Target on the +y axis at 20 mm whose sky vector points along +x:
rotation estimate +1. -/
def ft2 : FTarget := ⟨-2, 0, 0, 20⟩

/-- Claim C3 counterexample: `_measure_fieldrot_deg` receives no flux and
takes the plain `np.mean`; on these two targets (estimates -1 and +1) it
returns `rad2deg((-1+1)/2) = 0`, while the flux-weighted mean with fluxes
(1, 3) is `rad2deg((-1+3)/4) = 90/π ≠ 0`; so the measured field rotation
is not a flux-weighted mean of the per-target estimates. -/
theorem measure_fieldrot_not_flux_weighted :
    measure_fieldrot_deg hRot [ft1, ft2] ≠
      fluxMeanFieldrotDeg hRot [(ft1, 1), (ft2, 3)] := by
  have hs400 : Real.sqrt 400 = 20 := by
    rw [show ((400 : ℝ)) = 20 ^ 2 by norm_num, Real.sqrt_sq (by norm_num : (0:ℝ) ≤ 20)]
  have hH1 : hRot ft1.ha ft1.dec = (0, 1) := by norm_num [hRot, ft1]
  have hH2 : hRot ft2.ha ft2.dec = (1, 0) := by norm_num [hRot, ft2]
  have he1 : rotEstimate hRot ft1 = -1 := by
    simp only [rotEstimate, hH1]
    norm_num [ft1]
    rw [hs400]
    norm_num
  have he2 : rotEstimate hRot ft2 = 1 := by
    simp only [rotEstimate, hH2]
    norm_num [ft2]
    rw [hs400]
    norm_num
  have hok1 : fieldrotOk ft1 = true := by norm_num [fieldrotOk, ft1]
  have hok2 : fieldrotOk ft2 = true := by norm_num [fieldrotOk, ft2]
  have hL : measure_fieldrot_deg hRot [ft1, ft2] = 0 := by
    simp only [measure_fieldrot_deg, List.filter_cons, hok1, hok2, if_true, ite_true,
      List.filter_nil, List.map_cons, List.map_nil, List.sum_cons, List.sum_nil,
      he1, he2, List.length_cons, List.length_nil]
    norm_num
  have hR : fluxMeanFieldrotDeg hRot [(ft1, 1), (ft2, 3)] = (180 / Real.pi) * (1 / 2) := by
    simp only [fluxMeanFieldrotDeg, List.filter_cons, hok1, hok2, if_true, ite_true,
      List.filter_nil, List.map_cons, List.map_nil, List.sum_cons, List.sum_nil,
      he1, he2]
    norm_num
  rw [hL, hR]
  have hpos : (0 : ℝ) < (180 / Real.pi) * (1 / 2) := by positivity
  exact (ne_of_gt hpos).symm
